import Mathlib

/-!
Shallow embedding of the paginated-fetch-and-assemble core of the
welcome-home repository.

Modelled source files:
* `src/utils/wh_api_utils.py` — `download_table_csv` (text-merge CSV
  assembly loop) and `_get_next_page_url` (link-relation cursor
  extractor, regex `<([^>]+)>\s*;\s*rel=["\x27]?next["\x27]?`).
* `src/welcome_home_export/main.py` — `to_snake_case`,
  `fetch_all_ids_from_api` (structured-merge ID extraction loop with its
  crude inline link check `rel="next" in Link` / `Link.split(";")[0].strip("<>")`).
* `src/welcome_home/main.py` — `fetch_prospect_ids_from_activities`
  (prospect-ID collection into a uniqueness set, inline regex
  `<([^>]+)>;\s*rel="next"`).

Strings are modelled as `List Char`; machine-external collaborators
(HTTP transport, pandas CSV parsing) appear as explicit data
(`ApiStep.fail`, a parsed `Df`, a raw body) handed to the loops.
-/

/-- ASCII whitespace recognised both by Python's `str.strip()` and by the
regex class in the link-header patterns (restricted to ASCII inputs). -/
def pyWs (c : Char) : Bool :=
  c = ' ' || c = '\t' || c = '\n' || c = '\r' || c = '\x0b' || c = '\x0c'

/-- Python `s.strip()` on ASCII text: drop leading and trailing whitespace. -/
def stripChars (s : List Char) : List Char :=
  ((s.dropWhile pyWs).reverse.dropWhile pyWs).reverse

/-- Python `s.split(chr(10))`: split on every newline, keeping empty pieces;
the empty string yields one empty piece. -/
def splitNL : List Char → List (List Char)
  | [] => [[]]
  | '\n' :: rest => [] :: splitNL rest
  | c :: rest =>
    match splitNL rest with
    | [] => [[c]]
    | l :: ls => (c :: l) :: ls

/-- Python `"\n".join(lines)`. -/
def joinNL : List (List Char) → List Char
  | [] => []
  | [l] => l
  | l :: rest => l ++ '\n' :: joinNL rest

/-- Python substring test `needle in hay`. -/
def containsSub (needle : List Char) : List Char → Bool
  | [] => needle.isEmpty
  | hay@(_ :: tl) => needle.isPrefixOf hay || containsSub needle tl

/-- The literal token `next`. -/
def nextChars : List Char := ['n', 'e', 'x', 't']

/-- Matches the tail of the pattern `["\x27]?next` of `_get_next_page_url`:
an optional single or double quote is consumed greedily, then the literal
`next` must follow (the trailing optional quote always succeeds). -/
def relNextAfterEq : List Char → Bool
  | '"' :: rest => nextChars.isPrefixOf rest
  | '\'' :: rest => nextChars.isPrefixOf rest
  | rest => nextChars.isPrefixOf rest

/-- One anchored attempt of `re.search` for the `_get_next_page_url` pattern
`<([^>]+)>\s*;\s*rel=["\x27]?next["\x27]?` at the head of the input:
returns the captured URL on success. -/
def matchNextAt : List Char → Option (List Char)
  | '<' :: rest =>
    let url := rest.takeWhile (fun c => c != '>')
    if url.isEmpty then none
    else
      match rest.dropWhile (fun c => c != '>') with
      | '>' :: rest2 =>
        match rest2.dropWhile pyWs with
        | ';' :: rest4 =>
          match rest4.dropWhile pyWs with
          | 'r' :: 'e' :: 'l' :: '=' :: rest6 =>
            if relNextAfterEq rest6 then some url else none
          | _ => none
        | _ => none
      | _ => none
  | _ => none

/-- `re.search` over the whole header: leftmost start position wins. -/
def reSearchNext : List Char → Option (List Char)
  | [] => none
  | s@(_ :: tl) =>
    match matchNextAt s with
    | some u => some u
    | none => reSearchNext tl

/-- `_get_next_page_url` from `src/utils/wh_api_utils.py`: a missing or
empty (falsy) header yields no next URL, otherwise the regex is searched. -/
def get_next_page_url (link_header : Option (List Char)) : Option (List Char) :=
  match link_header with
  | none => none
  | some s => if s.isEmpty then none else reSearchNext s

/-- The literal substring `rel="next"` used by the crude inline checks in
`src/welcome_home_export/main.py` and `src/welcome_home/main.py`. -/
def relNextDq : List Char := "rel=".data ++ '"' :: "next".data ++ ['"']

/-- Python `s.strip("<>")`: drop leading and trailing `<` / `>` characters. -/
def stripAngles (s : List Char) : List Char :=
  let angle : Char → Bool := fun c => c = '<' || c = '>'
  ((s.dropWhile angle).reverse.dropWhile angle).reverse

/-- The inline pagination parsing of `fetch_all_ids_from_api`
(`src/welcome_home_export/main.py`, lines 136-139): if the Link header is
present and contains the exact substring `rel="next"`, the next URL is the
text before the first `;`, stripped of angle brackets; otherwise there is
no next page. -/
def crudeNextUrl (link_header : Option (List Char)) : Option (List Char) :=
  match link_header with
  | none => none
  | some s =>
    if containsSub relNextDq s then
      some (stripAngles (s.takeWhile (fun c => c != ';')))
    else none

/-- Whether `fetch_all_ids_from_api` continues to another page: its crude
check fires and the loop assigns the crude URL (URLs extracted this way are
treated as opaque by the loop model). -/
def crudeHasNext (link_header : Option (List Char)) : Bool :=
  match link_header with
  | none => false
  | some s => containsSub relNextDq s

/-- One anchored attempt of the inline regex of
`fetch_prospect_ids_from_activities` (`src/welcome_home/main.py`, line 99):
`<([^>]+)>;\s*rel="next"` — no whitespace is allowed before the semicolon
and only a double-quoted `next` is accepted. -/
def matchNextAt2 : List Char → Option (List Char)
  | '<' :: rest =>
    let url := rest.takeWhile (fun c => c != '>')
    if url.isEmpty then none
    else
      match rest.dropWhile (fun c => c != '>') with
      | '>' :: ';' :: rest2 =>
        if relNextDq.isPrefixOf (rest2.dropWhile pyWs) then some url else none
      | _ => none
  | _ => none

/-- `re.search` for the inline regex of the activities path. -/
def reSearchNext2 : List Char → Option (List Char)
  | [] => none
  | s@(_ :: tl) =>
    match matchNextAt2 s with
    | some u => some u
    | none => reSearchNext2 tl

/-- Pagination decision of `fetch_prospect_ids_from_activities`
(lines 95-107): continue only when the Link header is present, contains the
substring `rel="next"`, and the inline regex finds a match. -/
def prospectHasNext (link_header : Option (List Char)) : Bool :=
  match link_header with
  | none => false
  | some s => containsSub relNextDq s && (reSearchNext2 s).isSome

/-- ASCII uppercase letter, the regex class `[A-Z]`. -/
def isUpperA (c : Char) : Bool := 'A' ≤ c && c ≤ 'Z'

/-- ASCII lowercase letter, the regex class `[a-z]`. -/
def isLowerA (c : Char) : Bool := 'a' ≤ c && c ≤ 'z'

/-- The regex class `[a-z0-9]`. -/
def isLowerDigit (c : Char) : Bool := isLowerA c || ('0' ≤ c && c ≤ '9')

/-- ASCII `str.lower()` on one character. -/
def toLowerA (c : Char) : Char := if isUpperA c then Char.ofNat (c.toNat + 32) else c

/-- Fuelled scan of `re.sub` for the first pattern of `to_snake_case`,
`(.)([A-Z][a-z]+)` with replacement `\1_\2`: at each position a match needs
one arbitrary character, an uppercase letter and a maximal nonempty run of
lowercase letters; scanning resumes after the match. The fuel (the input
length) only guarantees structural recursion and is never exhausted. -/
def sub1Fuel : Nat → List Char → List Char
  | 0, s => s
  | _ + 1, [] => []
  | _ + 1, [c] => [c]
  | fuel + 1, c1 :: c2 :: rest =>
    if isUpperA c2 then
      let low := rest.takeWhile isLowerA
      if low.isEmpty then c1 :: sub1Fuel fuel (c2 :: rest)
      else c1 :: '_' :: c2 :: (low ++ sub1Fuel fuel (rest.dropWhile isLowerA))
    else c1 :: sub1Fuel fuel (c2 :: rest)

/-- Scan of `re.sub` for the second pattern of `to_snake_case`,
`([a-z0-9])([A-Z])` with replacement `\1_\2`; scanning resumes after each
two-character match. -/
def sub2Scan : List Char → List Char
  | [] => []
  | [c] => [c]
  | c1 :: c2 :: rest =>
    if isLowerDigit c1 && isUpperA c2 then c1 :: '_' :: c2 :: sub2Scan rest
    else c1 :: sub2Scan (c2 :: rest)

/-- `to_snake_case` from `src/welcome_home_export/main.py` (lines 55-58):
two regex substitutions followed by `str.lower()`. -/
def to_snake_case (name : List Char) : List Char :=
  (sub2Scan (sub1Fuel name.length name)).map toLowerA

/-- The lines of a page body as counted by `download_table_csv`
(`src/utils/wh_api_utils.py`, lines 64 and 67): `content.strip().split(chr(10))`. -/
def pageLines (content : List Char) : List (List Char) := splitNL (stripChars content)

/-- Per-page work of `download_table_csv` (lines 59-72): what is written to
the CSV file for this page and the page's record count. Page 1 is written
verbatim with count `lines - 1`; a later page has its header line stripped
and the remainder appended after one newline, or contributes nothing when
only a header line is present. -/
def assemblePage (page_count : Nat) (content : List Char) : List Char × Nat :=
  if page_count = 1 then (content, (pageLines content).length - 1)
  else
    let lines := pageLines content
    if lines.length > 1 then ('\n' :: joinNL lines.tail, lines.length - 1)
    else ([], 0)

/-- One HTTP response as seen by `download_table_csv`: its body text and
its optional Link header. -/
structure CsvResponse where
  body : List Char
  link : Option (List Char)
deriving DecidableEq, Repr

/-- The fetch loop of `download_table_csv` (lines 49-82) over a sequence of
server responses delivered along the link chain: accumulates the CSV text,
the page count and the running record total; it stops after the first
response whose Link header yields no next URL. -/
def downloadRun (page_count : Nat) (buf : List Char) (total : Nat) :
    List CsvResponse → List Char × Nat × Nat
  | [] => (buf, page_count, total)
  | r :: rest =>
    let pc := page_count + 1
    let part := assemblePage pc r.body
    match get_next_page_url r.link with
    | none => (buf ++ part.1, pc, total + part.2)
    | some _ => downloadRun pc (buf ++ part.1) (total + part.2) rest

/-- Pure text-merge assembler: the CSV text produced for a list of page
bodies starting at the given 1-based page index. -/
def assembleFrom (page_count : Nat) : List (List Char) → List Char
  | [] => []
  | c :: rest => (assemblePage page_count c).1 ++ assembleFrom (page_count + 1) rest

/-- Per-page record counts for a list of page bodies starting at the given
1-based page index. -/
def countsFrom (page_count : Nat) : List (List Char) → List Nat
  | [] => []
  | c :: rest => (assemblePage page_count c).2 :: countsFrom (page_count + 1) rest

/-- A well-formed link chain for `download_table_csv`: every response but
the last carries a Link header from which `_get_next_page_url` extracts a
next URL, and the last one yields none. -/
def chainOk : List CsvResponse → Bool
  | [] => true
  | [r] => (get_next_page_url r.link).isNone
  | r :: rest => (get_next_page_url r.link).isSome && chainOk rest

/-- A pandas data frame as far as `fetch_all_ids_from_api` inspects it:
named columns and rows of optionally-null values (pandas CSV parsing itself
is an external collaborator). -/
structure Df where
  cols : List (List Char)
  rows : List (List (Option Int))
deriving DecidableEq, Repr

/-- Column resolution of `fetch_all_ids_from_api` (lines 113-123): the
expected `snake_case(table).id` column when present, otherwise the first
column as fallback. -/
def resolveIdColumn (expected : List Char) (cols : List (List Char)) : List Char :=
  if expected ∈ cols then expected else cols.headD []

/-- The values of the resolved column, in row order. -/
def dfColumn (df : Df) (j : Nat) : List (Option Int) :=
  df.rows.map (fun r => r.getD j none)

/-- `df[id_column].dropna().tolist()` for one page (line 126): the non-null
values of the resolved ID column, in the page's own row order. -/
def pageIds (expected : List Char) (df : Df) : List Int :=
  (dfColumn df (df.cols.indexOf (resolveIdColumn expected df.cols))).filterMap id

/-- One iteration's input to `fetch_all_ids_from_api`: either the HTTP
request raises (`requests.exceptions.RequestException`), or a response
arrives with a raw body, the pandas parse outcome for that body, and the
optional Link header. -/
inductive ApiStep where
  | fail : ApiStep
  | page : List Char → Option Df → Option (List Char) → ApiStep
deriving DecidableEq, Repr

/-- The fetch loop of `fetch_all_ids_from_api` (lines 96-146): a transport
error, an empty (after `strip()`) body, or a parse error each abandon the
accumulated IDs and return the empty list; otherwise the page's IDs are
appended and the crude Link check decides whether to continue. -/
def fetchAllIdsRun (expected : List Char) (acc : List Int) : List ApiStep → List Int
  | [] => acc
  | ApiStep.fail :: _ => []
  | ApiStep.page body parsed link :: rest =>
    if (stripChars body).isEmpty then []
    else
      match parsed with
      | none => []
      | some df =>
        let acc2 := acc ++ pageIds expected df
        if crudeHasNext link then fetchAllIdsRun expected acc2 rest else acc2

/-- The IDs contributed by one successful step (empty for a failure or an
unparsable page). -/
def stepIds (expected : List Char) : ApiStep → List Int
  | ApiStep.fail => []
  | ApiStep.page _ none _ => []
  | ApiStep.page _ (some df) _ => pageIds expected df

/-- A step that `fetch_all_ids_from_api` processes without aborting:
a response with a nonempty stripped body that pandas parses. -/
def stepOk : ApiStep → Bool
  | ApiStep.fail => false
  | ApiStep.page body parsed _ => !(stripChars body).isEmpty && parsed.isSome

/-- Whether the crude pagination check fires on this step's Link header. -/
def stepNext : ApiStep → Bool
  | ApiStep.fail => false
  | ApiStep.page _ _ link => crudeHasNext link

/-- A well-formed chain for the ID loop: all pages are processable, every
page but the last passes the crude next-page check, and the last does not. -/
def idsChainOk : List ApiStep → Bool
  | [] => true
  | [s] => stepOk s && !stepNext s
  | s :: rest => stepOk s && stepNext s && idsChainOk rest

/-- One activity record as inspected by `fetch_prospect_ids_from_activities`
(`src/welcome_home/main.py`, lines 88-90): `activity.get` of a possibly
missing `record_type` and `record_id`. -/
structure Activity where
  record_type : Option (List Char)
  record_id : Option Int
deriving DecidableEq, Repr

/-- Python truthiness of the optional `record_id` value: `None` and `0`
are falsy. -/
def truthyId : Option Int → Bool
  | none => false
  | some n => n != 0

/-- The literal string compared against `record_type`. -/
def prospectChars : List Char := "Prospect".data

/-- CPython set insertion `prospect_ids.add(x)` observed as an
insertion-ordered list of the distinct elements: a new element is appended,
a present one leaves the set unchanged. -/
def addNew (acc : List Int) (n : Int) : List Int :=
  if n ∈ acc then acc else acc ++ [n]

/-- Processing of one activity (lines 88-90): its `record_id` joins the set
exactly when `record_type` equals `Prospect` and `record_id` is truthy. -/
def collectStep (acc : List Int) (a : Activity) : List Int :=
  if a.record_type = some prospectChars && truthyId a.record_id then
    addNew acc (a.record_id.getD 0)
  else acc

/-- The per-page activity scan `for activity in activities`. -/
def collectProspects (acc : List Int) : List Activity → List Int
  | [] => acc
  | a :: rest => collectProspects (collectStep acc a) rest

/-- One iteration's input to `fetch_prospect_ids_from_activities`: a raised
request exception or a JSON page of activities with its Link header. -/
inductive ActStep where
  | fail : ActStep
  | page : List Activity → Option (List Char) → ActStep
deriving DecidableEq, Repr

/-- The fetch loop of `fetch_prospect_ids_from_activities` (lines 74-117):
an exception breaks out of the loop keeping the set collected so far, an
empty activities page breaks likewise, and otherwise the page is scanned
and the inline Link check decides whether to continue. The returned list is
the distinct collected IDs in insertion order. -/
def fetchProspectIdsRun (acc : List Int) : List ActStep → List Int
  | [] => acc
  | ActStep.fail :: _ => acc
  | ActStep.page acts link :: rest =>
    if acts.isEmpty then acc
    else
      let acc2 := collectProspects acc acts
      if prospectHasNext link then fetchProspectIdsRun acc2 rest else acc2

/-- The set contents reached after scanning a list of good pages, ignoring
pagination. -/
def collectPages (acc : List Int) : List ActStep → List Int
  | [] => acc
  | ActStep.fail :: rest => collectPages acc rest
  | ActStep.page acts _ :: rest => collectPages (collectProspects acc acts) rest

/-- A step of the activities loop that is processed and followed by another
page: a nonempty activities page whose Link header passes the inline check. -/
def actGoodNext : ActStep → Bool
  | ActStep.fail => false
  | ActStep.page acts link => !acts.isEmpty && prospectHasNext link

/-! ## Concrete fixtures used by witnesses and counterexamples -/

/-- First page body of the spec's text-merge test. -/
def exBody1 : List Char := "id,name\n1,a\n2,b".data

/-- Second page body of the spec's text-merge test. -/
def exBody2 : List Char := "id,name\n3,c".data

/-- A header-only page body. -/
def exHeaderOnly : List Char := "id,name".data

/-- A Link header carrying a double-quoted next relation. -/
def exLinkNext : List Char := "<u2>; rel=".data ++ '"' :: "next".data ++ ['"']

/-- A one-column, one-row parsed page whose sole ID is 7. -/
def exDfX : Df := ⟨["x".data], [[some 7]]⟩

/-- A one-column parsed page with a null row between IDs 8 and 9. -/
def exDfY : Df := ⟨["x".data], [[some 8], [none], [some 9]]⟩

/-- An activity of record type Prospect with record ID 5. -/
def exActProspect : Activity := ⟨some "Prospect".data, some 5⟩

/-- A well-formed link header whose relation is next-archive, not next. -/
def exNextArchive : List Char := "<https://a>; rel=next-archive".data

/-- A link header whose next relation is single-quoted. -/
def exSingleQuoted : List Char :=
  "<https://a>; rel=".data ++ '\'' :: "next".data ++ ['\'']

/-- Two chained API steps, each one good page of IDs. -/
def exIdsSteps : List ApiStep :=
  [ApiStep.page "x\n8\n\n9".data (some exDfY) (some exLinkNext),
   ApiStep.page "x\n7".data (some exDfX) none]

/-- Two chained CSV responses carrying the spec's text-merge bodies. -/
def exCsvResponses : List CsvResponse :=
  [⟨exBody1, some exLinkNext⟩, ⟨exBody2, none⟩]

/-! ## Helper lemmas -/

lemma containsSub_of_isPrefixOf {n s : List Char} (h : n.isPrefixOf s = true) :
    containsSub n s = true := by
  cases s with
  | nil =>
    cases n with
    | nil => rfl
    | cons c tl => simp [List.isPrefixOf] at h
  | cons c tl => simp [containsSub, h]

lemma containsSub_cons {n : List Char} (c : Char) {tl : List Char}
    (h : containsSub n tl = true) : containsSub n (c :: tl) = true := by
  simp [containsSub, h]

lemma containsSub_of_dropWhile {n : List Char} (p : Char → Bool) :
    ∀ {s : List Char}, containsSub n (s.dropWhile p) = true → containsSub n s = true := by
  intro s
  induction s with
  | nil => simp
  | cons c tl ih =>
    intro h
    by_cases hp : p c
    · rw [List.dropWhile_cons_of_pos hp] at h
      exact containsSub_cons c (ih h)
    · rwa [List.dropWhile_cons_of_neg hp] at h

lemma relNextAfterEq_contains {r : List Char} (h : relNextAfterEq r = true) :
    containsSub nextChars r = true := by
  match r with
  | '"' :: rest => exact containsSub_cons _ (containsSub_of_isPrefixOf h)
  | '\'' :: rest => exact containsSub_cons _ (containsSub_of_isPrefixOf h)
  | [] => simp [relNextAfterEq, List.isPrefixOf, nextChars] at h
  | c :: rest =>
    by_cases hdq : c = '"'
    · subst hdq; exact containsSub_cons _ (containsSub_of_isPrefixOf h)
    · by_cases hsq : c = '\''
      · subst hsq; exact containsSub_cons _ (containsSub_of_isPrefixOf h)
      · have : relNextAfterEq (c :: rest) = nextChars.isPrefixOf (c :: rest) := by
          unfold relNextAfterEq
          split
          next heq => injection heq with h1 h2; exact absurd h1 hdq
          next heq => injection heq with h1 h2; exact absurd h1 hsq
          next => rfl
        rw [this] at h
        exact containsSub_of_isPrefixOf h

lemma matchNextAt_contains {s u : List Char} (h : matchNextAt s = some u) :
    containsSub nextChars s = true := by
  unfold matchNextAt at h
  split at h
  case h_2 => exact absurd h (by simp)
  case h_1 c rest =>
    dsimp only at h
    split at h
    · exact absurd h (by simp)
    · split at h
      case h_2 => exact absurd h (by simp)
      case h_1 rest2 hdw =>
        split at h
        case h_2 => exact absurd h (by simp)
        case h_1 rest4 hdw2 =>
          split at h
          case h_2 => exact absurd h (by simp)
          case h_1 rest6 hdw4 =>
            split at h
            case isFalse => exact absurd h (by simp)
            case isTrue hrel =>
              have h6 : containsSub nextChars rest6 = true := relNextAfterEq_contains hrel
              have h5 : containsSub nextChars (rest4.dropWhile pyWs) = true := by
                rw [hdw4]
                exact containsSub_cons _ (containsSub_cons _ (containsSub_cons _
                  (containsSub_cons _ h6)))
              have h4 : containsSub nextChars rest4 = true := containsSub_of_dropWhile _ h5
              have h3 : containsSub nextChars (rest2.dropWhile pyWs) = true := by
                rw [hdw2]; exact containsSub_cons _ h4
              have h2 : containsSub nextChars rest2 = true := containsSub_of_dropWhile _ h3
              have h1 : containsSub nextChars (rest.dropWhile (fun c => c != '>')) = true := by
                rw [hdw]; exact containsSub_cons _ h2
              exact containsSub_cons _ (containsSub_of_dropWhile _ h1)

lemma reSearchNext_eq_none {s : List Char} (h : containsSub nextChars s = false) :
    reSearchNext s = none := by
  induction s with
  | nil => rfl
  | cons c tl ih =>
    have hsplit : nextChars.isPrefixOf (c :: tl) = false ∧ containsSub nextChars tl = false := by
      have := h
      simp [containsSub] at this
      exact this
    cases hm : matchNextAt (c :: tl) with
    | some u =>
      have := matchNextAt_contains hm
      rw [this] at h
      exact absurd h (by simp)
    | none =>
      simp only [reSearchNext, hm]
      exact ih hsplit.2

lemma takeWhile_url (url r : List Char) (h : ∀ c ∈ url, (c != '>') = true) :
    (url ++ '>' :: r).takeWhile (fun c => c != '>') = url ∧
      (url ++ '>' :: r).dropWhile (fun c => c != '>') = '>' :: r := by
  induction url with
  | nil => simp [List.takeWhile_cons, List.dropWhile_cons]
  | cons c tl ih =>
    have hc : (c != '>') = true := h c (by simp)
    have htl : ∀ x ∈ tl, (x != '>') = true := fun x hx => h x (by simp [hx])
    obtain ⟨ht, hd⟩ := ih htl
    constructor
    · simpa [List.takeWhile_cons, hc] using ht
    · simpa [List.dropWhile_cons, hc] using hd

lemma dropWhile_ws_append (ws t : List Char) (h : ∀ c ∈ ws, pyWs c = true) :
    (ws ++ t).dropWhile pyWs = t.dropWhile pyWs := by
  induction ws with
  | nil => rfl
  | cons c tl ih =>
    have hc : pyWs c = true := h c (by simp)
    have htl : ∀ x ∈ tl, pyWs x = true := fun x hx => h x (by simp [hx])
    simpa [List.dropWhile_cons, hc] using ih htl

lemma matchNextAt_quoted (url ws1 ws2 q tail : List Char)
    (hq : q = ['"'] ∨ q = ['\''] ∨ q = [])
    (hurl : url ≠ []) (hurlc : ∀ c ∈ url, (c != '>') = true)
    (hw1 : ∀ c ∈ ws1, pyWs c = true) (hw2 : ∀ c ∈ ws2, pyWs c = true) :
    matchNextAt ('<' :: (url ++ '>' :: (ws1 ++ ';' :: (ws2 ++
      ('r' :: 'e' :: 'l' :: '=' :: (q ++ nextChars ++ q ++ tail)))))) = some url := by
  obtain ⟨ht, hd⟩ := takeWhile_url url
    (ws1 ++ ';' :: (ws2 ++ ('r' :: 'e' :: 'l' :: '=' :: (q ++ nextChars ++ q ++ tail)))) hurlc
  have hws1 : (ws1 ++ ';' :: (ws2 ++ ('r' :: 'e' :: 'l' :: '=' :: (q ++ nextChars ++ q ++
      tail)))).dropWhile pyWs
      = ';' :: (ws2 ++ ('r' :: 'e' :: 'l' :: '=' :: (q ++ nextChars ++ q ++ tail))) := by
    rw [dropWhile_ws_append _ _ hw1, List.dropWhile_cons]
    simp [pyWs]
  have hws2 : (ws2 ++ ('r' :: 'e' :: 'l' :: '=' :: (q ++ nextChars ++ q ++
      tail))).dropWhile pyWs = 'r' :: 'e' :: 'l' :: '=' :: (q ++ nextChars ++ q ++ tail) := by
    rw [dropWhile_ws_append _ _ hw2, List.dropWhile_cons]
    simp [pyWs]
  have hrel : relNextAfterEq (q ++ nextChars ++ q ++ tail) = true := by
    rcases hq with h | h | h <;> subst h <;> simp [relNextAfterEq, nextChars, List.isPrefixOf]
  simp only [matchNextAt, ht, hd, hws1, hws2, hrel, List.isEmpty_eq_true, hurl, if_false,
    if_true]

lemma get_next_page_url_quoted (url ws1 ws2 q tail : List Char)
    (hq : q = ['"'] ∨ q = ['\''] ∨ q = [])
    (hurl : url ≠ []) (hurlc : ∀ c ∈ url, (c != '>') = true)
    (hw1 : ∀ c ∈ ws1, pyWs c = true) (hw2 : ∀ c ∈ ws2, pyWs c = true) :
    get_next_page_url (some ('<' :: (url ++ '>' :: (ws1 ++ ';' :: (ws2 ++
      ('r' :: 'e' :: 'l' :: '=' :: (q ++ nextChars ++ q ++ tail))))))) = some url := by
  have hm := matchNextAt_quoted url ws1 ws2 q tail hq hurl hurlc hw1 hw2
  simp only [get_next_page_url, List.isEmpty_cons, if_false, Bool.false_eq_true,
    reSearchNext, hm]

lemma downloadRun_chain :
    ∀ (rs : List CsvResponse) (pc : Nat) (buf : List Char) (tot : Nat),
      chainOk rs = true →
      downloadRun pc buf tot rs =
        (buf ++ assembleFrom (pc + 1) (rs.map CsvResponse.body),
         pc + rs.length,
         tot + (countsFrom (pc + 1) (rs.map CsvResponse.body)).sum)
  | [], pc, buf, tot, _ => by
      simp [downloadRun, assembleFrom, countsFrom]
  | [r], pc, buf, tot, h => by
      have hnone : get_next_page_url r.link = none := by
        simpa [chainOk, Option.isNone_iff_eq_none] using h
      simp [downloadRun, hnone, assembleFrom, countsFrom]
  | r :: r2 :: rest, pc, buf, tot, h => by
      have h1 : ((get_next_page_url r.link).isSome && chainOk (r2 :: rest)) = true := by
        simpa [chainOk] using h
      rw [Bool.and_eq_true] at h1
      obtain ⟨u, hu⟩ := Option.isSome_iff_exists.mp h1.1
      have ih := downloadRun_chain (r2 :: rest) (pc + 1)
        (buf ++ (assemblePage (pc + 1) r.body).1)
        (tot + (assemblePage (pc + 1) r.body).2) h1.2
      have step : downloadRun pc buf tot (r :: r2 :: rest)
          = downloadRun (pc + 1) (buf ++ (assemblePage (pc + 1) r.body).1)
              (tot + (assemblePage (pc + 1) r.body).2) (r2 :: rest) := by
        conv_lhs => rw [downloadRun]
        rw [hu]
      rw [step, ih]
      simp only [List.map_cons, assembleFrom, countsFrom, Prod.mk.injEq, List.sum_cons,
        List.length_cons]
      refine ⟨by simp [List.append_assoc], by omega, by omega⟩

lemma fetchAllIdsRun_chain :
    ∀ (steps : List ApiStep) (e : List Char) (acc : List Int),
      idsChainOk steps = true →
      fetchAllIdsRun e acc steps = acc ++ (steps.map (stepIds e)).flatten
  | [], e, acc, _ => by simp [fetchAllIdsRun]
  | [ApiStep.fail], e, acc, h => by simp [idsChainOk, stepOk] at h
  | [ApiStep.page body parsed link], e, acc, h => by
      simp only [idsChainOk, stepOk, stepNext, Bool.and_eq_true, Bool.not_eq_true'] at h
      obtain ⟨⟨hbody, hsome⟩, hnext⟩ := h
      obtain ⟨df, hdf⟩ := Option.isSome_iff_exists.mp hsome
      subst hdf
      simp [fetchAllIdsRun, hbody, hnext, stepIds, crudeHasNext]
  | ApiStep.fail :: s2 :: rest, e, acc, h => by simp [idsChainOk, stepOk] at h
  | ApiStep.page body parsed link :: s2 :: rest, e, acc, h => by
      simp only [idsChainOk, stepOk, stepNext, Bool.and_eq_true, Bool.not_eq_true'] at h
      obtain ⟨⟨⟨hbody, hsome⟩, hnext⟩, hchain⟩ := h
      obtain ⟨df, hdf⟩ := Option.isSome_iff_exists.mp hsome
      subst hdf
      have ih := fetchAllIdsRun_chain (s2 :: rest) e (acc ++ pageIds e df) hchain
      simp [fetchAllIdsRun, hbody, hnext, ih, stepIds, List.append_assoc]

lemma fetchAllIdsRun_fail :
    ∀ (gs rest : List ApiStep) (e : List Char) (acc : List Int),
      (∀ g ∈ gs, (stepOk g && stepNext g) = true) →
      fetchAllIdsRun e acc (gs ++ ApiStep.fail :: rest) = []
  | [], rest, e, acc, _ => by simp [fetchAllIdsRun]
  | ApiStep.fail :: gs, rest, e, acc, h => by
      have hg := h ApiStep.fail (by simp)
      simp [stepOk] at hg
  | ApiStep.page body parsed link :: gs, rest, e, acc, h => by
      have hg := h (ApiStep.page body parsed link) (by simp)
      simp only [stepOk, stepNext, Bool.and_eq_true, Bool.not_eq_true'] at hg
      obtain ⟨⟨hbody, hsome⟩, hnext⟩ := hg
      obtain ⟨df, hdf⟩ := Option.isSome_iff_exists.mp hsome
      subst hdf
      have ih := fetchAllIdsRun_fail gs rest e (acc ++ pageIds e df)
        (fun g hgmem => h g (by simp [hgmem]))
      simp [fetchAllIdsRun, hbody, hnext, ih]

lemma fetchProspectIdsRun_fail :
    ∀ (gs rest : List ActStep) (acc : List Int),
      (∀ g ∈ gs, actGoodNext g = true) →
      fetchProspectIdsRun acc (gs ++ ActStep.fail :: rest) = collectPages acc gs
  | [], rest, acc, _ => by simp [fetchProspectIdsRun, collectPages]
  | ActStep.fail :: gs, rest, acc, h => by
      have hg := h ActStep.fail (by simp)
      simp [actGoodNext] at hg
  | ActStep.page acts link :: gs, rest, acc, h => by
      have hg := h (ActStep.page acts link) (by simp)
      simp only [actGoodNext, Bool.and_eq_true, Bool.not_eq_true'] at hg
      obtain ⟨hne, hnx⟩ := hg
      have ih := fetchProspectIdsRun_fail gs rest (collectProspects acc acts)
        (fun g hgmem => h g (by simp [hgmem]))
      simp [fetchProspectIdsRun, hne, hnx, ih, collectPages]

lemma mem_addNew {acc : List Int} {n x : Int} :
    x ∈ addNew acc n ↔ x ∈ acc ∨ x = n := by
  by_cases hmem : n ∈ acc
  · simp only [addNew, if_pos hmem]
    constructor
    · exact Or.inl
    · rintro (h | rfl)
      · exact h
      · exact hmem
  · simp [addNew, hmem]

lemma mem_collectStep {acc : List Int} {a : Activity} {x : Int} :
    x ∈ collectStep acc a ↔
      x ∈ acc ∨ (a.record_type = some prospectChars ∧ a.record_id = some x ∧ x ≠ 0) := by
  unfold collectStep
  split
  case isTrue hcond =>
    rw [Bool.and_eq_true, decide_eq_true_eq] at hcond
    obtain ⟨hrt, htr⟩ := hcond
    cases hid : a.record_id with
    | none => rw [hid] at htr; simp [truthyId] at htr
    | some n =>
      rw [hid] at htr
      have hn0 : n ≠ 0 := by simpa [truthyId] using htr
      simp only [Option.getD_some, mem_addNew, hrt, true_and, Option.some.injEq]
      constructor
      · rintro (h | rfl)
        · exact Or.inl h
        · exact Or.inr ⟨rfl, hn0⟩
      · rintro (h | ⟨rfl, _⟩)
        · exact Or.inl h
        · exact Or.inr rfl
  case isFalse hcond =>
    constructor
    · exact Or.inl
    · rintro (h | ⟨hrt, hid, hx0⟩)
      · exact h
      · exact absurd (by simp [hrt, hid, truthyId, bne_iff_ne, hx0]) hcond

lemma mem_collectProspects :
    ∀ (acts : List Activity) (acc : List Int) (x : Int),
      x ∈ collectProspects acc acts ↔
        x ∈ acc ∨ ∃ a ∈ acts,
          a.record_type = some prospectChars ∧ a.record_id = some x ∧ x ≠ 0 := by
  intro acts
  induction acts with
  | nil => simp [collectProspects]
  | cons a rest ih =>
    intro acc x
    simp only [collectProspects]
    rw [ih (collectStep acc a) x, mem_collectStep]
    simp only [List.mem_cons]
    constructor
    · rintro ((h | h) | ⟨b, hb, hprop⟩)
      · exact Or.inl h
      · exact Or.inr ⟨a, Or.inl rfl, h⟩
      · exact Or.inr ⟨b, Or.inr hb, hprop⟩
    · rintro (h | ⟨b, hb | hb, hprop⟩)
      · exact Or.inl (Or.inl h)
      · subst hb; exact Or.inl (Or.inr hprop)
      · exact Or.inr ⟨b, hb, hprop⟩

/-! ## Claim theorems -/

/-- C2, counterexample. The claim says the cursor extractor returns exactly
the URL marked with relation next, tolerating single quotes, and returns
None for a header containing no next relation. On the header
`<https://a>; rel=next-archive` — which contains no next relation, only a
next-archive one — `_get_next_page_url` nevertheless returns the URL; and
the export path's inline check, given a single-quoted next relation,
yields no next URL at all. -/
theorem c2_cursor_extraction_counterexample :
    get_next_page_url (some exNextArchive) = some "https://a".data ∧
    crudeNextUrl (some exSingleQuoted) = none := by
  constructor
  · decide
  · decide

/-- C2, amended. `_get_next_page_url` yields None on a missing or empty
header and on any header not containing the token `next`; a header shaped
`<URL>` + whitespace + `;` + whitespace + `rel=` + `next` in double quotes,
single quotes, or unquoted yields exactly that URL. (Headers whose relation
merely begins with `next` are also accepted, and the export path's inline
check recognises only the exact substring `rel="next"`, per the
counterexample.) -/
theorem c2_cursor_extraction :
    (get_next_page_url none = none ∧ get_next_page_url (some []) = none) ∧
    (∀ url ws1 ws2 q tail,
      q = ['"'] ∨ q = ['\''] ∨ q = [] →
      url ≠ [] → (∀ c ∈ url, (c != '>') = true) →
      (∀ c ∈ ws1, pyWs c = true) → (∀ c ∈ ws2, pyWs c = true) →
      get_next_page_url (some ('<' :: (url ++ '>' :: (ws1 ++ ';' :: (ws2 ++
        ('r' :: 'e' :: 'l' :: '=' :: (q ++ nextChars ++ q ++ tail))))))) = some url) ∧
    (∀ s, containsSub nextChars s = false → get_next_page_url (some s) = none) := by
  refine ⟨⟨rfl, rfl⟩, ?_, ?_⟩
  · intro url ws1 ws2 q tail hq hurl hurlc hw1 hw2
    exact get_next_page_url_quoted url ws1 ws2 q tail hq hurl hurlc hw1 hw2
  · intro s h
    cases s with
    | nil => rfl
    | cons c tl => simpa [get_next_page_url] using reSearchNext_eq_none h

/-- C2, witness: the amended theorem applied to the spec's own example
header (double quotes, one space) and to a header with no next token. -/
theorem c2_cursor_extraction_witness :
    ("https://x/y?cursor=abc".data ≠ ([] : List Char)) ∧
    get_next_page_url (some ('<' :: ("https://x/y?cursor=abc".data ++ '>' :: ([] ++ ';' :: ([' '] ++
      ('r' :: 'e' :: 'l' :: '=' :: (['"'] ++ nextChars ++ ['"'] ++ []))))))) =
        some "https://x/y?cursor=abc".data ∧
    containsSub nextChars "<https://a>; rel=last".data = false ∧
    get_next_page_url (some "<https://a>; rel=last".data) = none :=
  ⟨by decide,
   c2_cursor_extraction.2.1 "https://x/y?cursor=abc".data [] [' '] ['"'] []
     (Or.inl rfl) (by decide) (by decide) (by decide) (by decide),
   by decide,
   c2_cursor_extraction.2.2 "<https://a>; rel=last".data (by decide)⟩

/-- C6: in text-merge mode page 1's body is appended verbatim; a later page
with more than a header line contributes a newline followed by its body
minus the first line; and on the spec's two example pages the assembled
output is exactly `id,name`, `1,a`, `2,b`, `3,c` with 3 records in total. -/
theorem c6_text_merge (b : List Char) (rest : List (List Char)) (n : Nat) (c : List Char) :
    assembleFrom 1 (b :: rest) = b ++ assembleFrom 2 rest ∧
    ((pageLines c).length > 1 →
      (assemblePage (n + 2) c).1 = '\n' :: joinNL (pageLines c).tail) ∧
    assembleFrom 1 [exBody1, exBody2] = "id,name\n1,a\n2,b\n3,c".data ∧
    (countsFrom 1 [exBody1, exBody2]).sum = 3 := by
  refine ⟨?_, ?_, by decide, by decide⟩
  · simp [assembleFrom, assemblePage]
  · intro h
    unfold assemblePage
    rw [if_neg (by omega)]
    simp only [if_pos h]

/-- C6, witness: the subsequent-page clause applied to the second example
page, whose body has two lines. -/
theorem c6_text_merge_witness :
    (pageLines exBody2).length > 1 ∧
    (assemblePage 2 exBody2).1 = '\n' :: joinNL (pageLines exBody2).tail :=
  ⟨by decide, (c6_text_merge exBody1 [] 0 exBody2).2.1 (by decide)⟩

/-- C7: every page's record count is its number of body lines minus one,
floored at zero (Nat subtraction); and a page after the first whose body
parses to at most a header line contributes nothing to the output and zero
records. -/
theorem c7_page_record_count (idx : Nat) (c : List Char) (n : Nat) (d : List Char) :
    (assemblePage idx c).2 = (pageLines c).length - 1 ∧
    ((pageLines d).length ≤ 1 →
      (assemblePage (n + 2) d).1 = [] ∧ (assemblePage (n + 2) d).2 = 0) := by
  constructor
  · unfold assemblePage
    by_cases h1 : idx = 1
    · rw [if_pos h1]
    · rw [if_neg h1]
      dsimp only
      by_cases h2 : (pageLines c).length > 1
      · rw [if_pos h2]
      · rw [if_neg h2]
        simp only
        omega
  · intro h
    unfold assemblePage
    rw [if_neg (by omega), if_neg (by omega)]
    exact ⟨rfl, rfl⟩

/-- C7, witness: a header-only second page contributes zero records and
appends nothing. -/
theorem c7_page_record_count_witness :
    (pageLines exHeaderOnly).length ≤ 1 ∧
    (assemblePage 2 exHeaderOnly).1 = [] ∧ (assemblePage 2 exHeaderOnly).2 = 0 :=
  ⟨by decide, (c7_page_record_count 2 exHeaderOnly 0 exHeaderOnly).2 (by decide)⟩

/-- C5: the target column is `snake_case(table_name)` followed by `.id`
when present, else the first column (the fallback, a total function, never
raises); `DepositTransactions` resolves to `deposit_transactions.id`, and
against columns `[other_id]` the fallback picks `other_id`. -/
theorem c5_id_column_resolution (name e2 : List Char) (cols cols2 : List (List Char)) :
    (to_snake_case name ++ ".id".data ∈ cols →
      resolveIdColumn (to_snake_case name ++ ".id".data) cols
        = to_snake_case name ++ ".id".data) ∧
    (e2 ∉ cols2 → resolveIdColumn e2 cols2 = cols2.headD []) ∧
    to_snake_case "DepositTransactions".data = "deposit_transactions".data ∧
    resolveIdColumn "deposit_transactions.id".data ["other_id".data] = "other_id".data := by
  refine ⟨fun h => by simp [resolveIdColumn, h], fun h => by simp [resolveIdColumn, h],
    by decide, by decide⟩

/-- C5, witness: resolution applied concretely, both when the expected
column is present and when the fallback fires. -/
theorem c5_id_column_resolution_witness :
    (to_snake_case "DepositTransactions".data ++ ".id".data ∈
      ["deposit_transactions.id".data, "other".data]) ∧
    resolveIdColumn (to_snake_case "DepositTransactions".data ++ ".id".data)
      ["deposit_transactions.id".data, "other".data]
      = to_snake_case "DepositTransactions".data ++ ".id".data ∧
    ("deposit_transactions.id".data ∉ ["other_id".data]) ∧
    resolveIdColumn "deposit_transactions.id".data ["other_id".data]
      = (["other_id".data]).headD [] :=
  ⟨by decide,
   (c5_id_column_resolution "DepositTransactions".data "deposit_transactions.id".data
      ["deposit_transactions.id".data, "other".data] ["other_id".data]).1 (by decide),
   by decide,
   (c5_id_column_resolution "DepositTransactions".data "deposit_transactions.id".data
      ["deposit_transactions.id".data, "other".data] ["other_id".data]).2.1 (by decide)⟩

/-- C4: under a well-formed link chain both assembly modes preserve
insertion order. The structured-merge loop returns exactly the
concatenation, in page order, of each page's IDs taken in that page's own
row order; the text-merge loop's buffer is exactly the in-order
concatenation of the per-page appended texts. -/
theorem c4_order_preservation (e : List Char) (steps : List ApiStep) (rs : List CsvResponse) :
    (idsChainOk steps = true →
      fetchAllIdsRun e [] steps = (steps.map (stepIds e)).flatten) ∧
    (chainOk rs = true →
      (downloadRun 0 [] 0 rs).1 = assembleFrom 1 (rs.map CsvResponse.body)) := by
  constructor
  · intro h
    simpa using fetchAllIdsRun_chain steps e [] h
  · intro h
    rw [downloadRun_chain rs 0 [] 0 h]
    simp

/-- C4, witness: both clauses applied to two-page chained fixtures. -/
theorem c4_order_preservation_witness :
    idsChainOk exIdsSteps = true ∧
    fetchAllIdsRun "x".data [] exIdsSteps = (exIdsSteps.map (stepIds "x".data)).flatten ∧
    chainOk exCsvResponses = true ∧
    (downloadRun 0 [] 0 exCsvResponses).1 = assembleFrom 1 (exCsvResponses.map CsvResponse.body) :=
  ⟨by decide,
   (c4_order_preservation "x".data exIdsSteps exCsvResponses).1 (by decide),
   by decide,
   (c4_order_preservation "x".data exIdsSteps exCsvResponses).2 (by decide)⟩

/-- C8: under a well-formed link chain the CSV loop's reported page count
equals the number of pages (each visited exactly once, in chain order) and
its reported total equals the sum of the per-page record counts; the ID
loop's total (the length of the returned list, as reported on completion)
equals the sum of the per-page ID counts. -/
theorem c8_visit_and_totals (e : List Char) (steps : List ApiStep) (rs : List CsvResponse) :
    (chainOk rs = true →
      (downloadRun 0 [] 0 rs).2.1 = rs.length ∧
      (downloadRun 0 [] 0 rs).2.2 = (countsFrom 1 (rs.map CsvResponse.body)).sum) ∧
    (idsChainOk steps = true →
      (fetchAllIdsRun e [] steps).length
        = (steps.map (fun s => (stepIds e s).length)).sum) := by
  constructor
  · intro h
    rw [downloadRun_chain rs 0 [] 0 h]
    exact ⟨by simp, by simp⟩
  · intro h
    rw [fetchAllIdsRun_chain steps e [] h]
    simp only [List.nil_append, List.length_flatten, List.map_map]
    rfl

/-- C8, witness: both clauses applied to two-page chained fixtures. -/
theorem c8_visit_and_totals_witness :
    chainOk exCsvResponses = true ∧
    ((downloadRun 0 [] 0 exCsvResponses).2.1 = exCsvResponses.length ∧
      (downloadRun 0 [] 0 exCsvResponses).2.2
        = (countsFrom 1 (exCsvResponses.map CsvResponse.body)).sum) ∧
    idsChainOk exIdsSteps = true ∧
    (fetchAllIdsRun "x".data [] exIdsSteps).length
      = (exIdsSteps.map (fun s => (stepIds "x".data s).length)).sum :=
  ⟨by decide,
   (c8_visit_and_totals "x".data exIdsSteps exCsvResponses).1 (by decide),
   by decide,
   (c8_visit_and_totals "x".data exIdsSteps exCsvResponses).2 (by decide)⟩

/-- C1, counterexample. The claim says every ID-extraction fetch is
all-or-nothing on a transport error. In the activities path, after one good
page containing prospect ID 5 and a chained next link, a transport error on
page 2 makes the fetch return the partially collected `[5]`, not an
empty/failure signal. -/
theorem c1_all_or_nothing_counterexample :
    fetchProspectIdsRun []
      [ActStep.page [exActProspect] (some exLinkNext), ActStep.fail] = [5] ∧
    ([5] : List Int) ≠ [] := by
  constructor
  · decide
  · decide

/-- C1, amended. Only `fetch_all_ids_from_api` is all-or-nothing: whenever
a transport error is reached after any run of good chained pages, it
returns the empty list, discarding the IDs already assembled;
`fetch_prospect_ids_from_activities` instead stops fetching and returns the
IDs it collected from the pages already fetched. -/
theorem c1_transport_error_policy (e : List Char) (gs rest : List ApiStep) (acc : List Int)
    (gs2 rest2 : List ActStep) (acc2 : List Int) :
    ((∀ g ∈ gs, (stepOk g && stepNext g) = true) →
      fetchAllIdsRun e acc (gs ++ ApiStep.fail :: rest) = []) ∧
    ((∀ g ∈ gs2, actGoodNext g = true) →
      fetchProspectIdsRun acc2 (gs2 ++ ActStep.fail :: rest2) = collectPages acc2 gs2) :=
  ⟨fun h => fetchAllIdsRun_fail gs rest e acc h,
   fun h => fetchProspectIdsRun_fail gs2 rest2 acc2 h⟩

/-- C1, witness: one good chained page followed by a transport error, in
both ID-extraction paths. -/
theorem c1_transport_error_policy_witness :
    (∀ g ∈ [ApiStep.page "x\n7".data (some exDfX) (some exLinkNext)],
      (stepOk g && stepNext g) = true) ∧
    fetchAllIdsRun "x".data []
      ([ApiStep.page "x\n7".data (some exDfX) (some exLinkNext)] ++ ApiStep.fail :: []) = [] ∧
    (∀ g ∈ [ActStep.page [exActProspect] (some exLinkNext)], actGoodNext g = true) ∧
    fetchProspectIdsRun []
      ([ActStep.page [exActProspect] (some exLinkNext)] ++ ActStep.fail :: [])
      = collectPages [] [ActStep.page [exActProspect] (some exLinkNext)] :=
  ⟨by decide,
   (c1_transport_error_policy "x".data
     [ApiStep.page "x\n7".data (some exDfX) (some exLinkNext)] [] []
     [ActStep.page [exActProspect] (some exLinkNext)] [] []).1 (by decide),
   by decide,
   (c1_transport_error_policy "x".data
     [ApiStep.page "x\n7".data (some exDfX) (some exLinkNext)] [] []
     [ActStep.page [exActProspect] (some exLinkNext)] [] []).2 (by decide)⟩

/-- C3, counterexample. The claim says an empty page after the first is
treated as end-of-stream with the records assembled so far kept. In
`fetch_all_ids_from_api`, after a good first page yielding ID 7 and a
chained next link, an empty second page body makes the fetch return the
empty list — the same first page alone yields `[7]`, so the assembled
records were discarded, not kept. -/
theorem c3_empty_page_counterexample :
    fetchAllIdsRun "x".data []
      [ApiStep.page "x\n7".data (some exDfX) (some exLinkNext),
       ApiStep.page [] none none] = [] ∧
    fetchAllIdsRun "x".data [] [ApiStep.page "x\n7".data (some exDfX) none] = [7] := by
  constructor
  · decide
  · decide

/-- C3, amended. An empty page is end-of-stream keeping the records
collected so far only in the activities path (where an empty first page
likewise just yields no data); in the export ID path an empty stripped body
at any position makes the whole fetch return the empty list, discarding the
IDs already assembled; in the CSV path an empty body contributes no text
and zero records, with pagination continuing per the Link header. -/
theorem c3_empty_page_policy (acc : List Int) (link : Option (List Char))
    (rest : List ActStep) (e : List Char) (acc2 : List Int) (body : List Char)
    (parsed : Option Df) (link2 : Option (List Char)) (rest2 : List ApiStep) (idx : Nat) :
    fetchProspectIdsRun acc (ActStep.page [] link :: rest) = acc ∧
    ((stripChars body).isEmpty = true →
      fetchAllIdsRun e acc2 (ApiStep.page body parsed link2 :: rest2) = []) ∧
    assemblePage idx [] = ([], 0) := by
  refine ⟨by simp [fetchProspectIdsRun], fun h => by simp [fetchAllIdsRun, h], ?_⟩
  unfold assemblePage
  by_cases h1 : idx = 1
  · rw [if_pos h1]
    rfl
  · rw [if_neg h1]
    rfl

/-- C3, witness: the empty-body clause applied to an empty second-page
body in the export ID path. -/
theorem c3_empty_page_policy_witness :
    (stripChars []).isEmpty = true ∧
    fetchAllIdsRun "x".data [7] (ApiStep.page [] none none :: []) = [] :=
  ⟨by decide,
   (c3_empty_page_policy [] none [] "x".data [7] [] none none [] 0).2.1 (by decide)⟩

/-- C9: the fetch loops are pure functions of the response sequence, so
re-running a fetch against the same fixed, non-mutating server responses
produces an identical assembled dataset — byte-for-byte for the CSV text
and element-for-element for the ID sequences. -/
theorem c9_rerun_identical (rs rs2 : List CsvResponse) (e : List Char)
    (ss ss2 : List ApiStep) (ts ts2 : List ActStep) :
    (rs = rs2 → downloadRun 0 [] 0 rs = downloadRun 0 [] 0 rs2) ∧
    (ss = ss2 → fetchAllIdsRun e [] ss = fetchAllIdsRun e [] ss2) ∧
    (ts = ts2 → fetchProspectIdsRun [] ts = fetchProspectIdsRun [] ts2) :=
  ⟨fun h => by rw [h], fun h => by rw [h], fun h => by rw [h]⟩

/-- C9, witness: two runs over the concrete two-page fixtures coincide. -/
theorem c9_rerun_identical_witness :
    downloadRun 0 [] 0 exCsvResponses = downloadRun 0 [] 0 exCsvResponses ∧
    fetchAllIdsRun "x".data [] exIdsSteps = fetchAllIdsRun "x".data [] exIdsSteps ∧
    fetchProspectIdsRun [] [ActStep.page [exActProspect] none]
      = fetchProspectIdsRun [] [ActStep.page [exActProspect] none] :=
  ⟨(c9_rerun_identical exCsvResponses exCsvResponses "x".data exIdsSteps exIdsSteps
      [ActStep.page [exActProspect] none] [ActStep.page [exActProspect] none]).1 rfl,
   (c9_rerun_identical exCsvResponses exCsvResponses "x".data exIdsSteps exIdsSteps
      [ActStep.page [exActProspect] none] [ActStep.page [exActProspect] none]).2.1 rfl,
   (c9_rerun_identical exCsvResponses exCsvResponses "x".data exIdsSteps exIdsSteps
      [ActStep.page [exActProspect] none] [ActStep.page [exActProspect] none]).2.2 rfl⟩

/-- C10: an activity's record ID joins the prospect set exactly when its
record type is `Prospect` and its record ID is truthy; in particular an
activity whose record ID is 0 or missing is never collected, even with
record type `Prospect`. -/
theorem c10_prospect_filter (acc : List Int) (acts : List Activity) (x : Int) :
    (x ∈ collectProspects acc acts ↔
      x ∈ acc ∨ ∃ a ∈ acts,
        a.record_type = some prospectChars ∧ a.record_id = some x ∧ x ≠ 0) ∧
    collectStep acc ⟨some prospectChars, some 0⟩ = acc ∧
    collectStep acc ⟨some prospectChars, none⟩ = acc :=
  ⟨mem_collectProspects acts acc x,
   by simp [collectStep, truthyId],
   by simp [collectStep, truthyId]⟩
